import Mathlib

/-!
Verification of the "where-should-i-eat" recommendation pipeline.

Shallow embedding of the algorithmic core:
* `src/lib/ranking.ts`  — value score, exceptional-venue test, free-text
  open-hours check, rank-and-filter.  All arithmetic there is rational
  (affine formulas and a 2-decimal rounding), so it is modelled over `ℚ`.
* `src/lib/scoring.ts`  — the five aggregation strategies and the
  confidence metric.  These use `Math.log10`, so they are modelled over
  `ℝ` with the exact real logarithm.
* `src/lib/places.ts`   — structured weekly opening periods.
* `src/app/api/search/route.ts` — the daypart → reference-instant mapping.

JS `Math.round(x)` equals `⌊x + 1/2⌋` for all finite inputs, so the
source's `Math.round(x * 100) / 100` is modelled as `⌊x * 100 + 1/2⌋ / 100`.
-/

namespace WhereToEat

/-! ### ranking.ts : calculateValueScore -/

/-- `Math.round(x * 100) / 100` over `ℚ` (2-decimal rounding, half up). -/
def roundTo2 (x : ℚ) : ℚ := ((⌊x * 100 + 1/2⌋ : ℤ) : ℚ) / 100

/-- Embedding of `calculateValueScore` (ranking.ts lines 31–64). -/
def calculateValueScore (rating travelTimeMin maxTravelTimeMin : ℚ)
    (isExceptional : Bool) : ℚ :=
  let timeFactor : ℚ :=
    if travelTimeMin ≤ maxTravelTimeMin then
      -- Linear decay within acceptable range
      1 - travelTimeMin / maxTravelTimeMin * 0.3
    else if isExceptional then
      -- Exceptional places get gentler penalty beyond threshold
      0.7 - (travelTimeMin - maxTravelTimeMin) / maxTravelTimeMin * 0.1
    else
      -- Non-exceptional places get steep penalty beyond threshold
      0.7 - (travelTimeMin - maxTravelTimeMin) / maxTravelTimeMin * 0.4
  -- Ensure timeFactor doesn't go below 0.3
  let timeFactor := max 0.3 timeFactor
  -- Exceptional bonus: add 0.2 to rating
  let effectiveRating := if isExceptional then rating + 0.2 else rating
  roundTo2 (effectiveRating * timeFactor)

/-! ### ranking.ts : isExceptionalRestaurant -/

/-- One platform's rating signal as seen by ranking.ts (`PlatformReview`). -/
structure RankingReview where
  platform : String
  rating : ℚ
  reviewCount : ℕ
deriving DecidableEq

/-- The fields of `Restaurant` that `isExceptionalRestaurant` reads. -/
structure Restaurant where
  name : String
  reviews : List RankingReview
  aggregatedScore : ℚ
deriving DecidableEq

/-- `needle` occurs at the head of `hay` (step of JS `String.includes`). -/
def matchesFrom : List Char → List Char → Bool
  | [], _ => true
  | _ :: _, [] => false
  | n :: ns, h :: hs => n == h && matchesFrom ns hs

/-- JS `hay.includes(needle)` on already-lowercased character lists. -/
def containsChars : List Char → List Char → Bool
  | [], needle => matchesFrom needle []
  | h :: t, needle => matchesFrom needle (h :: t) || containsChars t needle

/-- The fixed award-keyword list of `isExceptionalRestaurant`. -/
def specialIndicators : List (List Char) :=
  ["michelin".toList, "james beard".toList, "award".toList, "starred".toList]

/-- `name.toLowerCase()` as a character list. -/
def lowerName (name : String) : List Char := name.toList.map Char.toLower

/-- Embedding of `isExceptionalRestaurant` (ranking.ts lines 74–99);
the TS defaults are `threshold = 4.8`, `minReviews = 500`. -/
def isExceptionalRestaurant (restaurant : Restaurant)
    (threshold : ℚ) (minReviews : ℕ) : Bool :=
  let totalReviews := (restaurant.reviews.map (·.reviewCount)).sum
  if threshold ≤ restaurant.aggregatedScore ∧ minReviews ≤ totalReviews then
    true
  else if 4.9 ≤ restaurant.aggregatedScore ∧ 200 ≤ totalReviews then
    true
  else if specialIndicators.any
      (fun ind => containsChars (lowerName restaurant.name) ind) then
    true
  else
    false

/-- Total review count over a restaurant's signals. -/
def totalReviewCount (restaurant : Restaurant) : ℕ :=
  (restaurant.reviews.map (·.reviewCount)).sum

/-! ### ranking.ts : checkIfOpen (free-text weekly hours) -/

/-- A (case-normalised) AM/PM marker captured by the time-range regex. -/
inductive Meridiem
  | am
  | pm
deriving DecidableEq

/-- The six capture groups of the regex
`/(\d{1,2}):?(\d{2})?\s*(AM|PM)?\s*-\s*(\d{1,2}):?(\d{2})?\s*(AM|PM)?/i`:
hour, optional two-digit minutes and optional AM/PM marker for each
endpoint.  Hours carry no leading zeros in the format the code expects. -/
structure TimeMatch where
  h1 : ℕ
  m1 : Option ℕ
  ap1 : Option Meridiem
  h2 : ℕ
  m2 : Option ℕ
  ap2 : Option Meridiem
deriving DecidableEq

/-- Parsed view of one free-text hours line such as `"Mon: 11:00 AM - 10:00 PM"`:
`day` is the leading day token (the code matches lines with `startsWith`),
`hasClosed` records whether the lowercased line contains `"closed"`, and
`range` is the result of the time-range regex on the line (`none` = no match).
Lean has no regex engine, so the embedding takes the line pre-tokenised. -/
structure HoursLine where
  day : String
  hasClosed : Bool
  range : Option TimeMatch
deriving DecidableEq

/-- `const dayNames = ['Sun', 'Mon', 'Tue', 'Wed', 'Thu', 'Fri', 'Sat']`. -/
def dayNames : List String :=
  ["Sun", "Mon", "Tue", "Wed", "Thu", "Fri", "Sat"]

/-- The inner `parseTime` of `checkIfOpen`: 12-hour clock to
minutes-since-midnight.  Missing minutes default to 0; `PM` adds 12 to a
non-12 hour; `12 AM` becomes hour 0. -/
def parseTime (hour : ℕ) (minute : Option ℕ) (ampm : Option Meridiem) : ℕ :=
  let m := minute.getD 0
  let h :=
    if ampm = some Meridiem.pm ∧ hour ≠ 12 then hour + 12
    else if ampm = some Meridiem.am ∧ hour = 12 then 0
    else hour
  h * 60 + m

/-- Result record of both open-status resolvers. -/
structure OpenResult where
  isOpen : Bool
  openUntil : Option String
deriving DecidableEq

/-- Two-digit rendering of the raw two-digit minutes group. -/
def pad2 (n : ℕ) : String :=
  if n < 10 then "0" ++ toString n else toString n

/-- `openUntil` string `` `${timeMatch[4]}:${timeMatch[5] || '00'} ${timeMatch[6] || 'PM'}` ``. -/
def formatUntil (tm : TimeMatch) : String :=
  toString tm.h2 ++ ":" ++ (match tm.m2 with | some m => pad2 m | none => "00")
    ++ " " ++ (match tm.ap2 with
               | some Meridiem.am => "AM"
               | some Meridiem.pm => "PM"
               | none => "PM")

/-- Embedding of `checkIfOpen` (ranking.ts lines 106–155).  `hours` is the
optional list of free-text lines; `dayOfWeek` is `currentTime.getDay()`
(0 = Sunday); `hour`/`minute` are `getHours()`/`getMinutes()`. -/
def checkIfOpen (hours : Option (List HoursLine))
    (dayOfWeek hour minute : ℕ) : OpenResult :=
  match hours with
  | none => ⟨true, none⟩
  | some hs =>
    if hs.isEmpty then ⟨true, none⟩
    else
      let currentTimeNum := hour * 60 + minute
      match hs.find? (fun l => l.day == (dayNames[dayOfWeek]?.getD "")) with
      | none => ⟨true, none⟩ -- Assume open if no data for today
      | some todayHours =>
        if todayHours.hasClosed then ⟨false, none⟩
        else
          match todayHours.range with
          | none => ⟨true, none⟩
          | some tm =>
            let openTime := parseTime tm.h1 tm.m1 tm.ap1
            let closeTime := parseTime tm.h2 tm.m2 tm.ap2
            let isOpen := decide (openTime ≤ currentTimeNum ∧ currentTimeNum < closeTime)
            ⟨isOpen, if isOpen then some (formatUntil tm) else none⟩

/-! ### places.ts : isOpenAtTime (structured weekly periods) -/

/-- One endpoint of a Google-style opening period: day of week 0–6 and a
time-of-day.  The source carries the time as a 4-digit string `"0900"` and
compares such strings lexicographically, which on equal-length digit
strings coincides with numeric order; the embedding stores the numeric
value `HHMM` (e.g. `900`). -/
structure DayTime where
  day : ℕ
  time : ℕ
deriving DecidableEq

/-- `OpeningHoursPeriod`: an opening endpoint and an optional closing one. -/
structure OpeningHoursPeriod where
  opensAt : DayTime
  closesAt : Option DayTime
deriving DecidableEq

/-- One iteration of the loop in `isOpenAtTime` (places.ts lines 105–126):
does `period` cover the instant (`dayOfWeek`, `timeStr`)? -/
def periodCoversCode (dayOfWeek timeStr : ℕ) (period : OpeningHoursPeriod) : Bool :=
  let sameDayBranch :=
    period.opensAt.day == dayOfWeek &&
      (match period.closesAt with
       | some c =>
         if c.day ≠ period.opensAt.day then
           -- Opens today and closes tomorrow - if we're after open time, we're good
           decide (period.opensAt.time ≤ timeStr)
         else
           -- Normal same-day hours
           decide (period.opensAt.time ≤ timeStr ∧ timeStr ≤ c.time)
       | none =>
         -- closeTime defaults to '2359' when the period has no close
         decide (period.opensAt.time ≤ timeStr ∧ timeStr ≤ 2359))
  let prevDay := (dayOfWeek + 6) % 7
  let overnightBranch :=
    match period.closesAt with
    | some c =>
      period.opensAt.day == prevDay && c.day == dayOfWeek && decide (timeStr ≤ c.time)
    | none => false
  sameDayBranch || overnightBranch

/-- Embedding of `isOpenAtTime` (places.ts lines 95–129).  The target
instant is given by `getDay()` and the `"HHMM"` value built from
`getHours()`/`getMinutes()`. -/
def isOpenAtTime (openingHours : Option (List OpeningHoursPeriod))
    (dayOfWeek hour minute : ℕ) : Bool :=
  match openingHours with
  | none => true -- If no hours data, assume open
  | some periods =>
    if periods.isEmpty then true
    else
      let timeStr := hour * 100 + minute
      periods.any (periodCoversCode dayOfWeek timeStr)

/-! ### ranking.ts : rankRestaurants -/

/-- The fields of `RankedRestaurant` that `rankRestaurants` reads. -/
structure RankedRestaurant where
  name : String
  travelTimeMin : ℚ
  isOpen : Bool
  valueScore : ℚ
  isExceptional : Bool
deriving DecidableEq

/-- The fields of `RankingConfig` that `rankRestaurants` reads. -/
structure RankingConfig where
  maxTravelTimeMin : ℚ
deriving DecidableEq

/-- Embedding of `rankRestaurants` (ranking.ts lines 160–171).  JS
`Array.prototype.sort` is a stable sort, and with the comparator
`(a, b) => b.valueScore - a.valueScore` it stably sorts by non-increasing
`valueScore`; this is modelled by `List.mergeSort` (stable) with the
corresponding boolean order. -/
def rankRestaurants (restaurants : List RankedRestaurant)
    (config : RankingConfig) : List RankedRestaurant :=
  (((restaurants.filter (fun r => r.isOpen)).filter
      (fun r => decide (r.travelTimeMin ≤ config.maxTravelTimeMin) || r.isExceptional)).mergeSort
    (fun a b => decide (b.valueScore ≤ a.valueScore)))

/-! ### route.ts : getPlannedDate -/

/-- A calendar instant as far as `getPlannedDate` manipulates it: an
abstract calendar-day counter (`setDate(getDate() + 1)` adds one day,
month rollover included) plus `getHours()`/`getMinutes()`.
`setHours(h, 0, 0, 0)` sets the time of day to `h:00`. -/
structure SimpleDate where
  day : ℤ
  hour : ℕ
  minute : ℕ
deriving DecidableEq

/-- `target.setHours(h, 0, 0, 0)`. -/
def setHoursTo (dt : SimpleDate) (h : ℕ) : SimpleDate := ⟨dt.day, h, 0⟩

/-- `target.setDate(target.getDate() + 1)`. -/
def addOneDay (dt : SimpleDate) : SimpleDate := ⟨dt.day + 1, dt.hour, dt.minute⟩

/-- Embedding of the `getPlannedDate` closure in the search route
(route.ts lines 25–65). -/
def getPlannedDate (time : String) (now : SimpleDate) : SimpleDate :=
  let currentHour := now.hour
  match time with
  | "breakfast" =>
    let target := setHoursTo now 8
    if 10 ≤ currentHour then addOneDay target else target
  | "lunch" =>
    let target := setHoursTo now 12
    if 14 ≤ currentHour then addOneDay target else target
  | "dinner" =>
    let target := setHoursTo now 19
    if 21 ≤ currentHour then addOneDay target else target
  | "tomorrow_lunch" => setHoursTo (addOneDay now) 12
  | "tomorrow_dinner" => setHoursTo (addOneDay now) 19
  | _ => now

/-! ### scoring.ts : the five weighting strategies

The scoring module calls `Math.log10`, so it is modelled over `ℝ`
(`Real.logb 10`), which makes these definitions noncomputable. -/

/-- One platform's rating signal as read by scoring.ts (`PlatformReview`). -/
structure PlatformReview where
  platform : String
  rating : ℝ
  reviewCount : ℕ

/-- The `WeightingStrategy` union type. -/
inductive WeightingStrategy
  | simple_average
  | review_count_weighted
  | bayesian_average
  | confidence_weighted
  | platform_trust
deriving DecidableEq

/-- The fields of `WeightingConfig` that `calculateAggregatedScore` reads.
`platformWeights` is the optional per-platform weight record, modelled as a
partial lookup function. -/
structure WeightingConfig where
  strategy : WeightingStrategy
  platformWeights : Option (String → Option ℝ)
  bayesianPrior : Option ℝ
  bayesianMinReviews : Option ℝ

/-- `DEFAULT_PLATFORM_WEIGHTS` (scoring.ts lines 3–9). -/
noncomputable def DEFAULT_PLATFORM_WEIGHTS : String → Option ℝ :=
  fun platform =>
    if platform = "google" then some 1.0
    else if platform = "yelp" then some 1.0
    else if platform = "tripadvisor" then some 1.0
    else if platform = "foursquare" then some 0.9
    else if platform = "zomato" then some 0.8
    else none

/-- `Math.round(x * 100) / 100` over `ℝ`. -/
noncomputable def roundTo2R (x : ℝ) : ℝ := ((⌊x * 100 + 1/2⌋ : ℤ) : ℝ) / 100

/-- Embedding of `simpleAverage` (scoring.ts lines 14–18). -/
noncomputable def simpleAverage (reviews : List PlatformReview) : ℝ :=
  if reviews.isEmpty then 0
  else ((reviews.map (·.rating)).sum) / (reviews.length : ℝ)

/-- Embedding of `reviewCountWeighted` (scoring.ts lines 23–30). -/
noncomputable def reviewCountWeighted (reviews : List PlatformReview) : ℝ :=
  if reviews.isEmpty then 0
  else
    let totalReviews := (reviews.map (·.reviewCount)).sum
    if totalReviews = 0 then simpleAverage reviews
    else ((reviews.map (fun r => r.rating * (r.reviewCount : ℝ))).sum) / (totalReviews : ℝ)

/-- Embedding of `bayesianAverage` (scoring.ts lines 37–52); the TS
defaults are `prior = 3.5`, `minReviews = 10`. -/
noncomputable def bayesianAverage (reviews : List PlatformReview)
    (prior minReviews : ℝ) : ℝ :=
  if reviews.isEmpty then 0
  else
    -- Calculate per-platform Bayesian scores, then average
    let bayesianScores := reviews.map (fun r =>
      (minReviews * prior + (r.reviewCount : ℝ) * r.rating) / (minReviews + (r.reviewCount : ℝ)))
    bayesianScores.sum / (bayesianScores.length : ℝ)

/-- The per-signal weight `Math.log10(r.reviewCount + 1) + 1` of
`confidenceWeighted`. -/
noncomputable def logWeight (r : PlatformReview) : ℝ :=
  Real.logb 10 ((r.reviewCount : ℝ) + 1) + 1

/-- Embedding of `confidenceWeighted` (scoring.ts lines 58–66). -/
noncomputable def confidenceWeighted (reviews : List PlatformReview) : ℝ :=
  if reviews.isEmpty then 0
  else
    let totalWeight := (reviews.map logWeight).sum
    let weightedSum := (reviews.map (fun r => r.rating * logWeight r)).sum
    weightedSum / totalWeight

/-- The per-signal weight `platformWeights[r.platform] ?? 1.0` of
`platformTrustWeighted`. -/
noncomputable def trustWeight (platformWeights : String → Option ℝ)
    (r : PlatformReview) : ℝ :=
  (platformWeights r.platform).getD 1.0

/-- Embedding of `platformTrustWeighted` (scoring.ts lines 71–82). -/
noncomputable def platformTrustWeighted (reviews : List PlatformReview)
    (platformWeights : String → Option ℝ) : ℝ :=
  if reviews.isEmpty then 0
  else
    let totalWeight := (reviews.map (trustWeight platformWeights)).sum
    let weightedSum := (reviews.map (fun r => r.rating * trustWeight platformWeights r)).sum
    weightedSum / totalWeight

/-- Embedding of `calculateAggregatedScore` (scoring.ts lines 87–124).
The TS `switch` has an unreachable `default` arm because the strategy
union is closed; the embedding's match is total over the five strategies. -/
noncomputable def calculateAggregatedScore (reviews : List PlatformReview)
    (config : WeightingConfig) : ℝ :=
  if reviews.isEmpty then 0
  else
    let score :=
      match config.strategy with
      | WeightingStrategy.simple_average => simpleAverage reviews
      | WeightingStrategy.review_count_weighted => reviewCountWeighted reviews
      | WeightingStrategy.bayesian_average =>
        bayesianAverage reviews (config.bayesianPrior.getD 3.5)
          (config.bayesianMinReviews.getD 10)
      | WeightingStrategy.confidence_weighted => confidenceWeighted reviews
      | WeightingStrategy.platform_trust =>
        platformTrustWeighted reviews
          (config.platformWeights.getD DEFAULT_PLATFORM_WEIGHTS)
    -- Round to 2 decimal places
    roundTo2R score

/-- Embedding of `calculateConfidence` (scoring.ts lines 129–149). -/
noncomputable def calculateConfidence (reviews : List PlatformReview) : ℝ :=
  if reviews.isEmpty then 0
  else
    let platformScore := min ((reviews.length : ℝ) / 4) 1
    let totalReviews := (reviews.map (·.reviewCount)).sum
    let reviewScore := min (Real.logb 10 ((totalReviews : ℝ) + 1) / 3) 1
    let ratings := reviews.map (·.rating)
    let mean := ratings.sum / (ratings.length : ℝ)
    let variance := (ratings.map (fun r => (r - mean) ^ 2)).sum / (ratings.length : ℝ)
    let consistencyScore := max 0 (1 - variance / 2)
    roundTo2R (platformScore * 0.3 + reviewScore * 0.4 + consistencyScore * 0.3)

/-- Modelled from the spec sentence: per-signal shrinkage
`(C·prior + n_i·rating_i)/(C + n_i)` toward the prior, followed by the
unweighted arithmetic mean of the shrunk per-signal scores. -/
noncomputable def specShrinkThenAverage (reviews : List PlatformReview)
    (prior pseudoCount : ℝ) : ℝ :=
  (reviews.map (fun r =>
      (pseudoCount * prior + (r.reviewCount : ℝ) * r.rating) /
        (pseudoCount + (r.reviewCount : ℝ)))).sum / (reviews.length : ℝ)

/-- The default Bayesian configuration (prior 3.5, pseudo-count 10). -/
noncomputable def bayesCfg : WeightingConfig :=
  ⟨WeightingStrategy.bayesian_average, none, some 3.5, some 10⟩

/-- The raw (pre-floor) time factor of `calculateValueScore`. -/
def rawTimeFactor (t mx : ℚ) (e : Bool) : ℚ :=
  if t ≤ mx then 1 - t / mx * 0.3
  else if e then 0.7 - (t - mx) / mx * 0.1
  else 0.7 - (t - mx) / mx * 0.4

/-- Coverage of an instant by one structured period as the claim words it:
the period opens and closes on the target day and t lies within
[open, close]; or it opens on the target day, closes on a different day
(overnight) and t ≥ open; or it opened the day before, closes on the
target day and t ≤ close.  Stated for periods that carry a close. -/
def specPeriodCovers (dayOfWeek timeStr : ℕ) (p : OpeningHoursPeriod) : Prop :=
  match p.closesAt with
  | some c =>
    (p.opensAt.day = dayOfWeek ∧ c.day = dayOfWeek ∧
      p.opensAt.time ≤ timeStr ∧ timeStr ≤ c.time) ∨
    (p.opensAt.day = dayOfWeek ∧ c.day ≠ dayOfWeek ∧ p.opensAt.time ≤ timeStr) ∨
    (p.opensAt.day = (dayOfWeek + 6) % 7 ∧ c.day = dayOfWeek ∧ timeStr ≤ c.time)
  | none => False

/-! ## Claims -/

/-- C3: on non-empty input `bayesianAverage` is exactly the
shrink-first-average-second formula of the spec, and under prior 3.5 with
pseudo-count 10 a lone {rating 5, n = 2} signal lands strictly closer to
3.5 (score 3.75) than a lone {rating 5, n = 1000} signal does
(score 4.99). -/
theorem bayes_shrink_then_average (reviews : List PlatformReview)
    (prior pseudoCount : ℝ) (hne : reviews ≠ []) :
    (bayesianAverage reviews prior pseudoCount =
      specShrinkThenAverage reviews prior pseudoCount) ∧
    calculateAggregatedScore [⟨"google", 5, 2⟩] bayesCfg = 3.75 ∧
    calculateAggregatedScore [⟨"google", 5, 1000⟩] bayesCfg = 4.99 ∧
    |calculateAggregatedScore [⟨"google", 5, 2⟩] bayesCfg - 3.5| <
      |calculateAggregatedScore [⟨"google", 5, 1000⟩] bayesCfg - 3.5| := by
  have h2 : calculateAggregatedScore [⟨"google", 5, 2⟩] bayesCfg = 3.75 := by
    simp [calculateAggregatedScore, bayesCfg, bayesianAverage, roundTo2R]
    have h1 : ⌊((10 * 3.5 + 2 * 5) / (10 + 2) * 100 + 2⁻¹ : ℝ)⌋ = 375 := by
      rw [Int.floor_eq_iff]
      constructor <;> norm_num
    rw [h1]
    norm_num
  have h3 : calculateAggregatedScore [⟨"google", 5, 1000⟩] bayesCfg = 4.99 := by
    simp [calculateAggregatedScore, bayesCfg, bayesianAverage, roundTo2R]
    have h1 : ⌊((10 * 3.5 + 1000 * 5) / (10 + 1000) * 100 + 2⁻¹ : ℝ)⌋ = 499 := by
      rw [Int.floor_eq_iff]
      constructor <;> norm_num
    rw [h1]
    norm_num
  refine ⟨?_, h2, h3, ?_⟩
  · have he : reviews.isEmpty = false := by simpa [List.isEmpty_iff] using hne
    simp [bayesianAverage, specShrinkThenAverage, he]
  · rw [h2, h3, abs_of_nonneg (by norm_num), abs_of_nonneg (by norm_num)]
    norm_num

/-- C3 witness: the single-signal list {google, 5, 2}. -/
theorem bayes_shrink_then_average_witness :
    bayesianAverage [⟨"google", 5, 2⟩] 3.5 10 =
      specShrinkThenAverage [⟨"google", 5, 2⟩] 3.5 10 :=
  (bayes_shrink_then_average [⟨"google", 5, 2⟩] 3.5 10 (by simp)).1

/-- C1: the claim says the free-text resolver adds 24h to the close time
when close < open (overnight crossing) and reports open for
`"Mon: 10:00 AM - 2:00 AM"` during Monday's late evening.  The code has no
such adjustment: at Monday 23:00 it computes open = 600, close = 120 and
tests `600 ≤ 1380 ∧ 1380 < 120`, reporting closed even though
close < open and 1380 ∈ [600, 120 + 1440). -/
theorem checkIfOpen_overnight_no_wrap :
    (checkIfOpen
        (some [⟨"Mon", false,
          some ⟨10, some 0, some Meridiem.am, 2, some 0, some Meridiem.am⟩⟩])
        1 23 0).isOpen = false ∧
    parseTime 10 (some 0) (some Meridiem.am) = 600 ∧
    parseTime 2 (some 0) (some Meridiem.am) = 120 ∧
    120 < 600 ∧ 600 ≤ 23 * 60 + 0 ∧ 23 * 60 + 0 < 120 + 24 * 60 := by
  decide

lemma roundTo2_mono {a b : ℚ} (h : a ≤ b) : roundTo2 a ≤ roundTo2 b := by
  unfold roundTo2
  have h2 : ((⌊a * 100 + 1/2⌋ : ℤ) : ℚ) ≤ ((⌊b * 100 + 1/2⌋ : ℤ) : ℚ) := by
    exact_mod_cast Int.floor_mono (by linarith)
  linarith

lemma calculateValueScore_eq (rating t mx : ℚ) (e : Bool) :
    calculateValueScore rating t mx e =
      roundTo2 ((if e then rating + 0.2 else rating) * max 0.3 (rawTimeFactor t mx e)) := rfl

lemma rawTimeFactor_anti (mx : ℚ) (hmx : 0 < mx) (e : Bool) {t1 t2 : ℚ}
    (h12 : t1 ≤ t2) : rawTimeFactor t2 mx e ≤ rawTimeFactor t1 mx e := by
  unfold rawTimeFactor
  by_cases c1 : t1 ≤ mx <;> by_cases c2 : t2 ≤ mx <;> simp only [c1, c2, if_true, if_false]
  · have := (div_le_div_iff_of_pos_right hmx).mpr h12
    linarith
  · have h1 : t1 / mx ≤ 1 := (div_le_one hmx).mpr c1
    have h2 : 0 ≤ (t2 - mx) / mx := div_nonneg (by push_neg at c2; linarith) hmx.le
    cases e <;> simp <;> linarith
  · exact absurd (h12.trans c2) c1
  · have := (div_le_div_iff_of_pos_right hmx).mpr (sub_le_sub_right h12 mx)
    cases e <;> simp <;> linarith

/-- C4: for fixed rating ≥ 0, exceptional flag and positive travel-time
ceiling, `calculateValueScore` is non-increasing in the travel time, through
the within-ceiling segment, both beyond-ceiling segments, the 0.3 floor on
the time factor and the final 2-decimal rounding. -/
theorem valueScore_antitone (rating t1 t2 mx : ℚ) (e : Bool)
    (hr : 0 ≤ rating) (hmx : 0 < mx) (h0 : 0 ≤ t1) (h12 : t1 ≤ t2) :
    calculateValueScore rating t2 mx e ≤ calculateValueScore rating t1 mx e := by
  rw [calculateValueScore_eq, calculateValueScore_eq]
  apply roundTo2_mono
  apply mul_le_mul_of_nonneg_left
  · exact max_le_max le_rfl (rawTimeFactor_anti mx hmx e h12)
  · cases e <;> simp <;> linarith

/-- C4 witness: rating 4 and ceiling 20, travel times 5 ≤ 30. -/
theorem valueScore_antitone_witness :
    calculateValueScore 4 30 20 false ≤ calculateValueScore 4 5 20 false :=
  valueScore_antitone 4 5 30 20 false (by norm_num) (by norm_num) (by norm_num)
    (by norm_num)

lemma periodCoversCode_iff_spec (dayOfWeek timeStr : ℕ) (p : OpeningHoursPeriod)
    (hc : p.closesAt.isSome) :
    periodCoversCode dayOfWeek timeStr p = true ↔
      specPeriodCovers dayOfWeek timeStr p := by
  obtain ⟨⟨oday, otime⟩, oclose⟩ := p
  obtain ⟨⟨cday, ctime⟩, rfl⟩ := Option.isSome_iff_exists.mp hc
  simp only [periodCoversCode, specPeriodCovers, Bool.or_eq_true, Bool.and_eq_true,
    beq_iff_eq, decide_eq_true_eq]
  by_cases hd : cday = oday <;> simp [hd] <;> omega

/-- C6: on a non-empty list of structured periods each carrying a close,
`isOpenAtTime` reports open exactly when some period covers the target
instant in the claim's sense (same-day span, overnight start, or
overnight continuation from the previous day). -/
theorem isOpenAtTime_iff_spec (periods : List OpeningHoursPeriod)
    (dayOfWeek hour minute : ℕ) (hne : periods ≠ [])
    (hclose : ∀ p ∈ periods, p.closesAt.isSome) :
    (isOpenAtTime (some periods) dayOfWeek hour minute = true ↔
      ∃ p ∈ periods, specPeriodCovers dayOfWeek (hour * 100 + minute) p) := by
  have he : periods.isEmpty = false := by
    simpa [List.isEmpty_iff] using hne
  simp only [isOpenAtTime, he, Bool.false_eq_true, if_false, List.any_eq_true]
  constructor
  · rintro ⟨p, hp, hcov⟩
    exact ⟨p, hp, (periodCoversCode_iff_spec _ _ p (hclose p hp)).mp hcov⟩
  · rintro ⟨p, hp, hcov⟩
    exact ⟨p, hp, (periodCoversCode_iff_spec _ _ p (hclose p hp)).mpr hcov⟩

/-- C6 witness: a Monday 09:00–17:00 period covers Monday 10:00. -/
theorem isOpenAtTime_iff_spec_witness :
    ∃ p ∈ [({ opensAt := ⟨1, 900⟩, closesAt := some ⟨1, 1700⟩ } : OpeningHoursPeriod)],
      specPeriodCovers 1 (10 * 100 + 0) p :=
  (isOpenAtTime_iff_spec _ 1 10 0 (by decide) (by decide)).mp (by decide)

lemma vs_trans (a b c : RankedRestaurant) :
    (decide (b.valueScore ≤ a.valueScore)) = true →
    (decide (c.valueScore ≤ b.valueScore)) = true →
    (decide (c.valueScore ≤ a.valueScore)) = true := by
  simp only [decide_eq_true_eq]
  exact fun h1 h2 => h2.trans h1

lemma vs_total (a b : RankedRestaurant) :
    ((decide (b.valueScore ≤ a.valueScore)) || (decide (a.valueScore ≤ b.valueScore))) = true := by
  simp only [Bool.or_eq_true, decide_eq_true_eq]
  exact le_total _ _

/-- C2: for every candidate list and positive travel-time ceiling,
`rankRestaurants` returns exactly the open candidates that are within the
ceiling or exceptional (as a permutation of that filter), in non-increasing
`valueScore` order, preserving the input's relative order of candidates
with equal `valueScore` (stability, stated as pair-sublist preservation);
every returned candidate is open. -/
theorem rankRestaurants_spec (l : List RankedRestaurant) (cfg : RankingConfig)
    (hmax : 0 < cfg.maxTravelTimeMin) :
    (rankRestaurants l cfg).Perm
      ((l.filter (fun r => r.isOpen)).filter
        (fun r => decide (r.travelTimeMin ≤ cfg.maxTravelTimeMin) || r.isExceptional)) ∧
    (rankRestaurants l cfg).Pairwise (fun a b => b.valueScore ≤ a.valueScore) ∧
    (∀ a b : RankedRestaurant, a.valueScore = b.valueScore →
      List.Sublist [a, b] ((l.filter (fun r => r.isOpen)).filter
        (fun r => decide (r.travelTimeMin ≤ cfg.maxTravelTimeMin) || r.isExceptional)) →
      List.Sublist [a, b] (rankRestaurants l cfg)) ∧
    (∀ r ∈ rankRestaurants l cfg, r.isOpen = true ∧
      (r.travelTimeMin ≤ cfg.maxTravelTimeMin ∨ r.isExceptional = true)) := by
  refine ⟨List.mergeSort_perm _ _, ?_, ?_, ?_⟩
  · have h := List.sorted_mergeSort vs_trans vs_total
      ((l.filter (fun r => r.isOpen)).filter
        (fun r => decide (r.travelTimeMin ≤ cfg.maxTravelTimeMin) || r.isExceptional))
    exact h.imp (by simp only [decide_eq_true_eq]; exact fun h => h)
  · intro a b hab hsub
    exact List.pair_sublist_mergeSort vs_trans vs_total (by simp [hab]) hsub
  · intro r hr
    have hmem := (List.mergeSort_perm _ _).mem_iff.mp hr
    simp only [List.mem_filter, Bool.or_eq_true, decide_eq_true_eq] at hmem
    exact ⟨hmem.1.2, hmem.2⟩

/-- C2 witness: two open candidates, one beyond the 20-minute ceiling. -/
theorem rankRestaurants_spec_witness :
    (rankRestaurants [⟨"a", 5, true, 4.5, false⟩, ⟨"b", 50, true, 4.9, false⟩]
        ⟨20⟩).Perm
      (([⟨"a", 5, true, 4.5, false⟩, ⟨"b", 50, true, 4.9, false⟩].filter
          (fun r : RankedRestaurant => r.isOpen)).filter
        (fun r => decide (r.travelTimeMin ≤ (20:ℚ)) || r.isExceptional)) :=
  (rankRestaurants_spec _ ⟨20⟩ (by norm_num)).1

/-- C5: for every weighting strategy and configuration, aggregating the
empty signal list yields 0, and so does the confidence metric. -/
theorem aggregate_confidence_empty (config : WeightingConfig) :
    calculateAggregatedScore [] config = 0 ∧ calculateConfidence [] = 0 := by
  constructor <;> simp [calculateAggregatedScore, calculateConfidence]

/-- C7: both open-status resolvers default to open whenever hours data is
missing or empty, the free-text table has no line for the target day, or
the day's line is unparsable as a time range. -/
theorem open_status_permissive_default (dayOfWeek hour minute : ℕ)
    (hs : List HoursLine) (line : HoursLine) :
    (checkIfOpen none dayOfWeek hour minute).isOpen = true ∧
    (checkIfOpen (some []) dayOfWeek hour minute).isOpen = true ∧
    (hs.find? (fun l => l.day == dayNames[dayOfWeek]?.getD "") = none →
      (checkIfOpen (some hs) dayOfWeek hour minute).isOpen = true) ∧
    (hs.find? (fun l => l.day == dayNames[dayOfWeek]?.getD "") = some line →
      line.hasClosed = false → line.range = none →
      (checkIfOpen (some hs) dayOfWeek hour minute).isOpen = true) ∧
    isOpenAtTime none dayOfWeek hour minute = true ∧
    isOpenAtTime (some []) dayOfWeek hour minute = true := by
  refine ⟨rfl, rfl, ?_, ?_, rfl, rfl⟩
  · intro hfind
    unfold checkIfOpen
    by_cases he : hs.isEmpty <;> simp [he, hfind]
  · intro hfind hclosed hrange
    unfold checkIfOpen
    by_cases he : hs.isEmpty <;> simp [he, hfind, hclosed, hrange]

/-- C7 witness: a concrete unparsable "Mon" line is treated as open at
Monday noon. -/
theorem open_status_permissive_default_witness :
    (checkIfOpen (some [⟨"Mon", false, none⟩]) 1 12 0).isOpen = true :=
  (open_status_permissive_default 1 12 0 [⟨"Mon", false, none⟩]
    ⟨"Mon", false, none⟩).2.2.2.1 (by decide) rfl rfl

/-- C9: `isExceptionalRestaurant` holds exactly when
(score ≥ threshold and total reviews ≥ minReviews) or
(score ≥ 4.9 and total reviews ≥ 200) or the lowercased name contains one
of the fixed award keywords; concretely, score 4.9 with 250 reviews (no
keyword) is exceptional and score 4.7 with 10000 reviews is not. -/
theorem isExceptional_characterisation (r : Restaurant) (threshold : ℚ)
    (minReviews : ℕ) :
    (isExceptionalRestaurant r threshold minReviews = true ↔
      (threshold ≤ r.aggregatedScore ∧ minReviews ≤ totalReviewCount r) ∨
      (4.9 ≤ r.aggregatedScore ∧ 200 ≤ totalReviewCount r) ∨
      (∃ ind ∈ specialIndicators,
        containsChars (lowerName r.name) ind = true)) ∧
    isExceptionalRestaurant
      ⟨"The Corner Table", [⟨"google", 5, 250⟩], 4.9⟩ 4.8 500 = true ∧
    isExceptionalRestaurant
      ⟨"The Corner Table", [⟨"google", 4.7, 10000⟩], 4.7⟩ 4.8 500 = false := by
  have hkw : (specialIndicators.any
      (fun ind => containsChars (lowerName "The Corner Table") ind)) = false := by
    decide
  refine ⟨?_, by simp [isExceptionalRestaurant, hkw],
    by simp [isExceptionalRestaurant, hkw]; norm_num⟩
  unfold isExceptionalRestaurant totalReviewCount
  simp only [List.any_eq_true]
  split_ifs with h1 h2 h3 <;> simp_all

/-- C8 counterexample: at 09:00 the breakfast clock time 08:00 has already
passed, yet `getPlannedDate` keeps the same-day 08:00 instant instead of
rolling to the next day. -/
theorem getPlannedDate_no_roll_at_nine :
    getPlannedDate "breakfast" ⟨0, 9, 0⟩ = ⟨0, 8, 0⟩ ∧
    getPlannedDate "breakfast" ⟨0, 9, 0⟩ ≠ ⟨1, 8, 0⟩ ∧ 8 * 60 < 9 * 60 := by
  refine ⟨rfl, by decide, by norm_num⟩

/-- C8 (amended): each daypart maps to its fixed clock time today and
rolls to the next calendar day only once the current hour is at least two
hours past the daypart's start (breakfast rolls at ≥ 10, lunch at ≥ 14,
dinner at ≥ 21); the `tomorrow_*` variants always target the next day, and
any other input is wall-clock now. -/
theorem getPlannedDate_spec (now : SimpleDate) :
    getPlannedDate "breakfast" now =
      (if 10 ≤ now.hour then ⟨now.day + 1, 8, 0⟩ else ⟨now.day, 8, 0⟩) ∧
    getPlannedDate "lunch" now =
      (if 14 ≤ now.hour then ⟨now.day + 1, 12, 0⟩ else ⟨now.day, 12, 0⟩) ∧
    getPlannedDate "dinner" now =
      (if 21 ≤ now.hour then ⟨now.day + 1, 19, 0⟩ else ⟨now.day, 19, 0⟩) ∧
    getPlannedDate "tomorrow_lunch" now = ⟨now.day + 1, 12, 0⟩ ∧
    getPlannedDate "tomorrow_dinner" now = ⟨now.day + 1, 19, 0⟩ ∧
    getPlannedDate "now" now = now := by
  refine ⟨?_, ?_, ?_, rfl, rfl, rfl⟩ <;>
    simp only [getPlannedDate, setHoursTo, addOneDay]


/-! ## C10 : range invariants for the aggregation strategies -/

lemma sum_map_nonneg {α : Type} (l : List α) (f : α → ℝ)
    (h : ∀ a ∈ l, 0 ≤ f a) : 0 ≤ (l.map f).sum := by
  apply List.sum_nonneg
  intro x hx
  obtain ⟨a, ha, rfl⟩ := List.mem_map.mp hx
  exact h a ha

lemma sum_map_le_mul {α : Type} (l : List α) (v w : α → ℝ) (c : ℝ)
    (hv : ∀ a ∈ l, v a ≤ c) (hw : ∀ a ∈ l, 0 ≤ w a) :
    (l.map (fun a => v a * w a)).sum ≤ c * (l.map w).sum := by
  induction l with
  | nil => simp
  | cons a t ih =>
    simp only [List.map_cons, List.sum_cons, mul_add]
    have h1 : v a * w a ≤ c * w a :=
      mul_le_mul_of_nonneg_right (hv a (by simp)) (hw a (by simp))
    have h2 := ih (fun x hx => hv x (by simp [hx])) (fun x hx => hw x (by simp [hx]))
    linarith

lemma sum_map_pos_of_mem {α : Type} (l : List α) (w : α → ℝ)
    (hw : ∀ a ∈ l, 0 ≤ w a) (hex : ∃ a ∈ l, 0 < w a) :
    0 < (l.map w).sum := by
  induction l with
  | nil => simp at hex
  | cons a t ih =>
    simp only [List.map_cons, List.sum_cons]
    obtain ⟨x, hx, hxpos⟩ := hex
    rcases List.mem_cons.mp hx with rfl | hxt
    · have := sum_map_nonneg t w (fun y hy => hw y (by simp [hy]))
      linarith
    · have ht := ih (fun y hy => hw y (by simp [hy])) ⟨x, hxt, hxpos⟩
      have := hw a (by simp)
      linarith

/-- A weighted mean with nonnegative weights of positive total stays
inside the value range [0, 5]. -/
lemma weighted_avg_bounds {α : Type} (l : List α) (v w : α → ℝ)
    (hv : ∀ a ∈ l, 0 ≤ v a ∧ v a ≤ 5) (hw : ∀ a ∈ l, 0 ≤ w a)
    (hpos : 0 < (l.map w).sum) :
    0 ≤ (l.map (fun a => v a * w a)).sum / (l.map w).sum ∧
      (l.map (fun a => v a * w a)).sum / (l.map w).sum ≤ 5 := by
  constructor
  · exact div_nonneg (sum_map_nonneg l _ (fun a ha =>
      mul_nonneg (hv a ha).1 (hw a ha))) hpos.le
  · rw [div_le_iff₀ hpos]
    exact sum_map_le_mul l v w 5 (fun a ha => (hv a ha).2) hw

lemma sum_le_card_mul (xs : List ℝ) (c : ℝ) (h : ∀ x ∈ xs, x ≤ c) :
    xs.sum ≤ c * (xs.length : ℝ) := by
  induction xs with
  | nil => simp
  | cons a t ih =>
    simp only [List.sum_cons, List.length_cons]
    have h1 := h a (by simp)
    have h2 := ih (fun x hx => h x (by simp [hx]))
    push_cast
    linarith

lemma mean_bounds (xs : List ℝ) (hne : xs ≠ [])
    (h : ∀ x ∈ xs, 0 ≤ x ∧ x ≤ 5) :
    0 ≤ xs.sum / (xs.length : ℝ) ∧ xs.sum / (xs.length : ℝ) ≤ 5 := by
  have hlen : 0 < (xs.length : ℝ) := by
    have := List.length_pos.mpr hne
    exact_mod_cast this
  constructor
  · exact div_nonneg (List.sum_nonneg (fun x hx => (h x hx).1)) hlen.le
  · rw [div_le_iff₀ hlen]
    exact sum_le_card_mul xs 5 (fun x hx => (h x hx).2)

lemma simpleAverage_bounds (reviews : List PlatformReview) (hne : reviews ≠ [])
    (hr : ∀ r ∈ reviews, 0 ≤ r.rating ∧ r.rating ≤ 5) :
    0 ≤ simpleAverage reviews ∧ simpleAverage reviews ≤ 5 := by
  have he : reviews.isEmpty = false := by simpa [List.isEmpty_iff] using hne
  have hlen : (reviews.map (·.rating)).length = reviews.length := List.length_map _ _
  unfold simpleAverage
  rw [he]
  simp only [Bool.false_eq_true, if_false]
  have := mean_bounds (reviews.map (·.rating))
    (by simpa [List.map_eq_nil_iff] using hne)
    (by intro x hx; obtain ⟨r, hrr, rfl⟩ := List.mem_map.mp hx; exact hr r hrr)
  rw [hlen] at this
  exact this

lemma cast_sum_counts (l : List PlatformReview) :
    (l.map (fun r => ((r.reviewCount : ℕ) : ℝ))).sum
      = (((l.map (·.reviewCount)).sum : ℕ) : ℝ) := by
  induction l with
  | nil => simp
  | cons a t ih => simp [ih]

lemma reviewCountWeighted_bounds (reviews : List PlatformReview)
    (hne : reviews ≠ [])
    (hr : ∀ r ∈ reviews, 0 ≤ r.rating ∧ r.rating ≤ 5) :
    0 ≤ reviewCountWeighted reviews ∧ reviewCountWeighted reviews ≤ 5 := by
  have he : reviews.isEmpty = false := by simpa [List.isEmpty_iff] using hne
  unfold reviewCountWeighted
  rw [he]
  simp only [Bool.false_eq_true, if_false]
  split_ifs with ht
  · exact simpleAverage_bounds reviews hne hr
  · have hpos : (0:ℝ) < (((reviews.map (·.reviewCount)).sum : ℕ) : ℝ) := by
      exact_mod_cast Nat.pos_of_ne_zero ht
    have := weighted_avg_bounds reviews (·.rating) (fun r => ((r.reviewCount : ℕ) : ℝ))
      hr (fun a _ => Nat.cast_nonneg _) (by rw [cast_sum_counts]; exact hpos)
    rwa [cast_sum_counts] at this

lemma bayesianAverage_bounds (reviews : List PlatformReview)
    (prior pc : ℝ) (hne : reviews ≠ [])
    (hr : ∀ r ∈ reviews, 0 ≤ r.rating ∧ r.rating ≤ 5)
    (hprior : 0 ≤ prior ∧ prior ≤ 5) (hpc : 0 < pc) :
    0 ≤ bayesianAverage reviews prior pc ∧ bayesianAverage reviews prior pc ≤ 5 := by
  have he : reviews.isEmpty = false := by simpa [List.isEmpty_iff] using hne
  unfold bayesianAverage
  rw [he]
  simp only [Bool.false_eq_true, if_false, List.length_map]
  have hxs : ∀ x ∈ reviews.map (fun r =>
      (pc * prior + (r.reviewCount : ℝ) * r.rating) / (pc + (r.reviewCount : ℝ))),
      0 ≤ x ∧ x ≤ 5 := by
    intro x hx
    obtain ⟨r, hrr, rfl⟩ := List.mem_map.mp hx
    have hn : (0:ℝ) ≤ (r.reviewCount : ℝ) := Nat.cast_nonneg _
    have hd : (0:ℝ) < pc + (r.reviewCount : ℝ) := by linarith
    constructor
    · exact div_nonneg (by nlinarith [(hr r hrr).1, hprior.1]) hd.le
    · rw [div_le_iff₀ hd]
      nlinarith [(hr r hrr).2, hprior.2, (hr r hrr).1]
  have := mean_bounds _ (by simpa [List.map_eq_nil_iff] using hne) hxs
  rwa [List.length_map] at this

lemma logWeight_pos (r : PlatformReview) : 0 < logWeight r := by
  unfold logWeight
  have h1 : (1:ℝ) ≤ (r.reviewCount : ℝ) + 1 := by
    have : (0:ℝ) ≤ (r.reviewCount : ℝ) := Nat.cast_nonneg _
    linarith
  have := Real.logb_nonneg (by norm_num : (1:ℝ) < 10) h1
  linarith

lemma confidenceWeighted_bounds (reviews : List PlatformReview)
    (hne : reviews ≠ [])
    (hr : ∀ r ∈ reviews, 0 ≤ r.rating ∧ r.rating ≤ 5) :
    0 ≤ confidenceWeighted reviews ∧ confidenceWeighted reviews ≤ 5 := by
  have he : reviews.isEmpty = false := by simpa [List.isEmpty_iff] using hne
  obtain ⟨a, ha⟩ := List.exists_mem_of_ne_nil reviews hne
  unfold confidenceWeighted
  rw [he]
  simp only [Bool.false_eq_true, if_false]
  exact weighted_avg_bounds reviews (·.rating) logWeight hr
    (fun x _ => (logWeight_pos x).le)
    (sum_map_pos_of_mem reviews logWeight (fun x _ => (logWeight_pos x).le)
      ⟨a, ha, logWeight_pos a⟩)

lemma platformTrustWeighted_bounds (reviews : List PlatformReview)
    (pw : String → Option ℝ) (hne : reviews ≠ [])
    (hr : ∀ r ∈ reviews, 0 ≤ r.rating ∧ r.rating ≤ 5)
    (hw : ∀ r ∈ reviews, 0 ≤ trustWeight pw r)
    (hex : ∃ r ∈ reviews, 0 < trustWeight pw r) :
    0 ≤ platformTrustWeighted reviews pw ∧ platformTrustWeighted reviews pw ≤ 5 := by
  have he : reviews.isEmpty = false := by simpa [List.isEmpty_iff] using hne
  unfold platformTrustWeighted
  rw [he]
  simp only [Bool.false_eq_true, if_false]
  exact weighted_avg_bounds reviews (·.rating) (trustWeight pw) hr hw
    (sum_map_pos_of_mem reviews (trustWeight pw) hw hex)

lemma roundTo2R_bounds {x : ℝ} (h0 : 0 ≤ x) (h5 : x ≤ 5) :
    0 ≤ roundTo2R x ∧ roundTo2R x ≤ 5 := by
  unfold roundTo2R
  have hlo : (0:ℤ) ≤ ⌊x * 100 + 1/2⌋ := Int.floor_nonneg.mpr (by linarith)
  have h500 : ⌊(500.5 : ℝ)⌋ = 500 := by
    rw [Int.floor_eq_iff]
    constructor <;> norm_num
  have hhi : ⌊x * 100 + 1/2⌋ ≤ 500 := by
    rw [← h500]
    exact Int.floor_le_floor (by linarith)
  constructor
  · exact div_nonneg (by exact_mod_cast hlo) (by norm_num)
  · rw [div_le_iff₀ (by norm_num : (0:ℝ) < 100)]
    calc ((⌊x * 100 + 1/2⌋ : ℤ) : ℝ) ≤ 500 := by exact_mod_cast hhi
      _ = 5 * 100 := by norm_num

/-- C10: for signals with ratings in [0, 5], a Bayesian prior in [0, 5], a
positive pseudo-count and nonnegative per-source trust weights (positive
for at least one present signal), every strategy's aggregate — including
the final 2-decimal rounding — stays within the [0, 5] rating scale. -/
theorem aggregate_score_in_range (reviews : List PlatformReview)
    (config : WeightingConfig)
    (hr : ∀ r ∈ reviews, 0 ≤ r.rating ∧ r.rating ≤ 5)
    (hprior : 0 ≤ config.bayesianPrior.getD 3.5 ∧ config.bayesianPrior.getD 3.5 ≤ 5)
    (hpc : 0 < config.bayesianMinReviews.getD 10)
    (hw : ∀ r ∈ reviews,
      0 ≤ trustWeight (config.platformWeights.getD DEFAULT_PLATFORM_WEIGHTS) r)
    (hex : reviews ≠ [] → ∃ r ∈ reviews,
      0 < trustWeight (config.platformWeights.getD DEFAULT_PLATFORM_WEIGHTS) r) :
    0 ≤ calculateAggregatedScore reviews config ∧
      calculateAggregatedScore reviews config ≤ 5 := by
  by_cases hne : reviews = []
  · subst hne
    simp [calculateAggregatedScore]
  · have he : reviews.isEmpty = false := by simpa [List.isEmpty_iff] using hne
    obtain ⟨strat, pw, bp, bm⟩ := config
    unfold calculateAggregatedScore
    rw [he]
    simp only [Bool.false_eq_true, if_false]
    simp only at hprior hpc hw hex
    cases strat <;> dsimp only
    · obtain ⟨l, r⟩ := simpleAverage_bounds reviews hne hr
      exact roundTo2R_bounds l r
    · obtain ⟨l, r⟩ := reviewCountWeighted_bounds reviews hne hr
      exact roundTo2R_bounds l r
    · obtain ⟨l, r⟩ := bayesianAverage_bounds reviews _ _ hne hr hprior hpc
      exact roundTo2R_bounds l r
    · obtain ⟨l, r⟩ := confidenceWeighted_bounds reviews hne hr
      exact roundTo2R_bounds l r
    · obtain ⟨l, r⟩ := platformTrustWeighted_bounds reviews _ hne hr hw (hex hne)
      exact roundTo2R_bounds l r

/-- C10 witness: a single google signal, platform-trust strategy with the
default weight table. -/
theorem aggregate_score_in_range_witness :
    0 ≤ calculateAggregatedScore [⟨"google", 4.5, 100⟩]
        ⟨WeightingStrategy.platform_trust, none, none, none⟩ ∧
      calculateAggregatedScore [⟨"google", 4.5, 100⟩]
        ⟨WeightingStrategy.platform_trust, none, none, none⟩ ≤ 5 :=
  aggregate_score_in_range [⟨"google", 4.5, 100⟩]
    ⟨WeightingStrategy.platform_trust, none, none, none⟩
    (by
      intro r hrm
      simp only [List.mem_singleton] at hrm
      subst hrm
      norm_num)
    (by simp; norm_num)
    (by simp)
    (by
      intro r hrm
      simp only [List.mem_singleton] at hrm
      subst hrm
      simp [trustWeight, DEFAULT_PLATFORM_WEIGHTS]
      norm_num)
    (fun _ => ⟨⟨"google", 4.5, 100⟩, by simp,
      by simp [trustWeight, DEFAULT_PLATFORM_WEIGHTS]; norm_num⟩)

end WhereToEat
